import Mathlib

/-!
Verification development for the staff-roster dashboard client data layer.

The definitions below are a shallow embedding of the application code:
the session cache reader, the fetch-resolution state transition, the
search/filter pipeline, the delete handler, the count aggregation, the
CSV export routine, and the virtualized table row/key functions.
JavaScript strings are modelled as Lean strings; the JavaScript string
operations used by the code (toLowerCase, trim, includes, replace) are
given explicit executable models on the character list. JSON values read
from session storage are modelled by an inductive type, and object
reference identity is modelled by a numeric tag on each record.
-/

namespace Dashboard

/-! ## String operation models (JavaScript semantics) -/

/-- Model of JavaScript toLowerCase: lower every character. -/
def lowerStr (s : String) : String := String.mk (s.data.map Char.toLower)

/-- Drop leading whitespace characters from a character list. -/
def dropLeadingWs : List Char → List Char
  | [] => []
  | c :: cs => if c.isWhitespace then dropLeadingWs cs else c :: cs

/-- Model of JavaScript trim: drop leading and trailing whitespace. -/
def trimStr (s : String) : String :=
  String.mk ((dropLeadingWs (dropLeadingWs s.data).reverse).reverse)

/-- Whether the first list is a prefix of the second (character lists). -/
def hasPrefixL : List Char → List Char → Bool
  | [], _ => true
  | _ :: _, [] => false
  | a :: p, b :: l => a == b && hasPrefixL p l

/-- Whether the first list occurs as a contiguous sublist of the second. -/
def hasSubstrL (p : List Char) : List Char → Bool
  | [] => p.isEmpty
  | b :: l => hasPrefixL p (b :: l) || hasSubstrL p l

/-- Model of JavaScript String.prototype.includes. -/
def strIncludes (s pat : String) : Bool := hasSubstrL pat.data s.data

/-- Model of value.replace applied to every double quote, producing two. -/
def dupQuotes : List Char → List Char
  | [] => []
  | c :: cs => if c = '\"' then '\"' :: '\"' :: dupQuotes cs else c :: dupQuotes cs

/-- Model of JavaScript Array.prototype.join with a separator. -/
def joinSep (sep : String) : List String → String
  | [] => ""
  | [x] => x
  | x :: y :: xs => x ++ sep ++ joinSep sep (y :: xs)

/-! ## Data model (src/lib/types.ts) -/

/-- A JavaScript primitive that may appear in the optional id field
(number or string). -/
inductive JsPrim where
  | num (n : Int)
  | str (s : String)
deriving DecidableEq

/-- UserAddress from types.ts: city is optional. -/
structure UserAddress where
  city : Option String
deriving DecidableEq

/-- UserCompany from types.ts: name is optional. -/
structure UserCompany where
  name : Option String
deriving DecidableEq

/-- User from types.ts. The ref field is not a data field: it models the
JavaScript object reference identity of the record, so two records with
identical visible fields may still be distinct objects. -/
structure User where
  ref : Nat
  id : Option JsPrim
  name : String
  email : String
  address : Option UserAddress
  company : Option UserCompany
deriving DecidableEq

/-- The optional chain user.address?.city. -/
def cityOf (u : User) : Option String := u.address.bind UserAddress.city

/-- The optional chain user.company?.name. -/
def companyOf (u : User) : Option String := u.company.bind UserCompany.name

/-! ## JSON values and the session cache reader (readCachedUsers) -/

/-- JSON values as produced by JSON.parse. Numbers are modelled as
integers; the cache claims depend only on the shape of the value. -/
inductive Json where
  | null
  | bool (b : Bool)
  | num (n : Int)
  | str (s : String)
  | arr (elems : List Json)
  | obj (fields : List (String × Json))

/-- JavaScript truthiness of a parsed JSON value. -/
def truthy : Json → Bool
  | .null => false
  | .bool b => b
  | .num n => n != 0
  | .str s => s != ""
  | .arr _ => true
  | .obj _ => true

/-- Object member lookup; JSON.parse keeps the last duplicate key. -/
def lookupLast (k : String) : List (String × Json) → Option Json
  | [] => none
  | (k₁, v) :: rest =>
    match lookupLast k rest with
    | some v₁ => some v₁
    | none => if k₁ = k then some v else none

/-- Property access parsed.k on a JSON value: members exist only on
objects; on any other truthy value the access yields undefined (none). -/
def getMember (j : Json) (k : String) : Option Json :=
  match j with
  | .obj fields => lookupLast k fields
  | _ => none

/-- Whether Array.isArray would accept the accessed member. -/
def isArrayJson : Option Json → Bool
  | some (Json.arr _) => true
  | _ => false

/-- Whether typeof member is the string for numbers. -/
def isNumJson : Option Json → Bool
  | some (Json.num _) => true
  | _ => false

/-- Model of readCachedUsers. The input models what the store and parser
yield for the cache key: none is an absent key, some none is a stored
string that JSON.parse rejects (the catch branch), and some (some j) is
a stored string parsing to j. The result carries the timestamp and the
raw data array of the accepted payload. -/
def readCachedUsers (stored : Option (Option Json)) : Option (Int × List Json) :=
  match stored with
  | none => none
  | some none => none
  | some (some parsed) =>
    if truthy parsed = false then none
    else
      match getMember parsed "data" with
      | some (Json.arr data) =>
        match getMember parsed "timestamp" with
        | some (Json.num t) => some (t, data)
        | _ => none
      | _ => none

/-- The roster published at mount time from the cache: the users state
starts empty and is replaced by cached.data only when the read accepts
the stored value. -/
def initialRoster (stored : Option (Option Json)) : List Json :=
  match readCachedUsers stored with
  | some (_, data) => data
  | none => []

/-- Malformed stored cache values as enumerated by the specification:
absent key, unparseable JSON, a falsy or non-object parse result (wrong
shape), a data member that is not an array, or a timestamp member that
is not a number. -/
def malformedStored : Option (Option Json) → Bool
  | none => true
  | some none => true
  | some (some j) =>
    !(truthy j) || !(isArrayJson (getMember j "data")) || !(isNumJson (getMember j "timestamp"))

/-! ## Fetch lifecycle (fetchUsers inside the mount effect) -/

/-- CachedUsers payload written by writeCachedUsers. -/
structure CachedUsers where
  timestamp : Nat
  data : List User
deriving DecidableEq

/-- The component state touched by the fetch lifecycle: the useState
cells of App plus the session-storage cache slot. -/
structure AppState where
  users : List User
  query : String
  selectedCity : String
  selectedCompany : String
  loading : Bool
  error : Option String
  exportStatus : Option String
  isUsingCachedData : Bool
  cache : Option CachedUsers
deriving DecidableEq

/-- How the awaited network request resolves. -/
inductive FetchOutcome where
  | aborted
  | success (data : List User)
  | httpError (status : Nat)
  | invalidPayload
  | networkFailure
deriving DecidableEq

/-- buildErrorMessage: offline wins, then the thrown message is
classified by its text. -/
def buildErrorMessage (online : Bool) (e : FetchOutcome) : String :=
  if online = false then
    "You\x27re offline. Reconnect to load the staff roster."
  else
    match e with
    | .httpError _ =>
      "The staff service isn\x27t responding right now. Please try again in a moment."
    | .invalidPayload =>
      "The roster data looks incomplete. Please refresh or try again shortly."
    | _ => "We couldn\x27t load the staff roster. Please refresh and try again."

/-- The synchronous prefix of fetchUsers, run before the await: show the
loading indicator when requested and clear the error. -/
def fetchUsersStart (showLoading : Bool) (s : AppState) : AppState :=
  let s₁ := if showLoading then { s with loading := true } else s
  { s₁ with error := none }

/-- The resolution of fetchUsers applied to the state at await time:
the catch branch returns early on an abort, publishes and caches the
roster on success, and otherwise records a classified error message,
additionally clearing the roster and every filter when no cached data
exists; the finally branch then resets the loading indicator whenever
one was shown. -/
def fetchUsersResolve (showLoading hasCachedData online : Bool) (now : Nat)
    (outcome : FetchOutcome) (s : AppState) : AppState :=
  let s₁ :=
    match outcome with
    | .aborted => s
    | .success data =>
      { s with users := data, cache := some ⟨now, data⟩, isUsingCachedData := false }
    | e =>
      let s₂ := { s with error := some (buildErrorMessage online e) }
      if hasCachedData then s₂
      else { s₂ with users := [], query := "", selectedCity := "", selectedCompany := "" }
  if showLoading then { s₁ with loading := false } else s₁

/-! ## Search index and filter pipeline (searchIndex, filteredUsers) -/

/-- searchIndex: pair every user with the precomputed lowercase name. -/
def searchIndex (users : List User) : List (User × String) :=
  users.map (fun u => (u, lowerStr u.name))

/-- The normalized form of a query or selector value: trimmed, then
lowercased. -/
def normalizeSel (s : String) : String := lowerStr (trimStr s)

/-- The membership test the query branch applies to a user, phrased on
the user itself: substring match of the normalized query against the
lowercase name, vacuously true while the query is inactive. -/
def queryPred (q : String) (u : User) : Bool :=
  if normalizeSel q = "" then true
  else strIncludes (lowerStr u.name) (normalizeSel q)

/-- The city guard of the filter callback: pass unless the selector is
active and the lowercased city field differs from it (an absent field
always differs from an active selector). -/
def cityPass (sel : String) (u : User) : Bool :=
  normalizeSel sel == "" || (cityOf u).map lowerStr == some (normalizeSel sel)

/-- The company guard of the filter callback, symmetric to cityPass. -/
def companyPass (sel : String) (u : User) : Bool :=
  normalizeSel sel == "" || (companyOf u).map lowerStr == some (normalizeSel sel)

/-- filteredUsers: the query stage filters the search index and projects
back to users (or passes the roster through when the query is inactive),
and the second stage filters by the city and company guards. -/
def filteredUsers (users : List User) (deferredQuery selectedCity selectedCompany : String) :
    List User :=
  (if normalizeSel deferredQuery ≠ "" then
      ((searchIndex users).filter
        (fun e => strIncludes e.2 (normalizeSel deferredQuery))).map (fun e => e.1)
    else users).filter
    (fun u => cityPass selectedCity u && companyPass selectedCompany u)

/-! ## Delete handler (handleDelete) -/

/-- handleDelete: keep exactly the elements that are not reference
identical to the deleted record (the strict inequality operator on
objects compares references, modelled by the ref tag). -/
def handleDelete (user : User) (prev : List User) : List User :=
  prev.filter (fun item => item.ref != user.ref)

/-! ## Aggregation engine (buildCounts) -/

/-- One Map.set step: increment the count stored under the key, keeping
its original insertion position, or append a fresh entry at the end. -/
def bump (k : String) : List (String × Nat) → List (String × Nat)
  | [] => [(k, 1)]
  | (k₁, c) :: rest => if k₁ = k then (k₁, c + 1) :: rest else (k₁, c) :: bump k rest

/-- The Map built by the forEach loop of buildCounts: entries in first
insertion order, skipping records whose key is absent or falsy (the
empty string). -/
def gatherCounts (entries : List User) (getKey : User → Option String) :
    List (String × Nat) :=
  entries.foldl
    (fun acc u =>
      match getKey u with
      | none => acc
      | some k => if k = "" then acc else bump k acc)
    []

/-- Insertion step of a stable descending sort on counts: the new entry
goes after every entry with a count at least as large. -/
def insertByCount (x : String × Nat) : List (String × Nat) → List (String × Nat)
  | [] => [x]
  | y :: ys => if x.2 ≤ y.2 then y :: insertByCount x ys else x :: y :: ys

/-- Stable sort by count descending, the guaranteed behavior of
Array.prototype.sort with the comparator on counts. -/
def sortByCountDesc (l : List (String × Nat)) : List (String × Nat) :=
  l.foldl (fun acc x => insertByCount x acc) []

/-- buildCounts: gather the counts in first-seen order, then sort by
count descending with the stable sort. -/
def buildCounts (entries : List User) (getKey : User → Option String) :
    List (String × Nat) :=
  sortByCountDesc (gatherCounts entries getKey)

/-- Sum of the counts of a count list. -/
def sumCounts (l : List (String × Nat)) : Nat := (l.map (fun p => p.2)).sum

/-- The keys of the input in order of first occurrence, skipping absent
and falsy keys; the reference order for stable ties. -/
def firstSeenKeys (entries : List User) (getKey : User → Option String) : List String :=
  entries.foldl
    (fun acc u =>
      match getKey u with
      | none => acc
      | some k => if k = "" then acc else if k ∈ acc then acc else acc ++ [k])
    []

/-! ## CSV exporter (handleExport) -/

/-- The outcome of handleExport: the generated file content, when a file
is produced, and the status message shown to the user. -/
structure ExportResult where
  file : Option String
  status : String
deriving DecidableEq

/-- One CSV cell: the value double-quote enclosed with internal quotes
doubled. -/
def csvCell (v : String) : String := "\"" ++ String.mk (dupQuotes v.data) ++ "\""

/-- The row list built by handleExport: the header followed by one row
per entry, absent city or company rendered as the empty string. -/
def exportRows (entries : List User) : List (List String) :=
  ["Name", "Email", "City", "Company"] ::
    entries.map (fun u => [u.name, u.email, (cityOf u).getD "", (companyOf u).getD ""])

/-- The newline-joined CSV text of a row list. -/
def csvText (rows : List (List String)) : String :=
  joinSep "\n" (rows.map (fun row => joinSep "," (row.map csvCell)))

/-- handleExport: an empty input produces no file and the no-export
status; otherwise the CSV text is produced together with a status naming
the entry count and the source label. -/
def handleExport (entries : List User) (label : String) : ExportResult :=
  if entries.length = 0 then
    ⟨none, "No staff profiles are available to export."⟩
  else
    ⟨some (csvText (exportRows entries)),
      "Exported " ++ toString entries.length ++ " profiles from the " ++ label ++ "."⟩

/-! ## Virtualized table (UserRow, getRowKey) -/

/-- The visible content of one rendered row. -/
structure RenderedRow where
  serial : Nat
  ariaRowIndex : Nat
  name : String
  email : String
  cityText : String
  companyText : String
deriving DecidableEq

/-- UserRow: the windowed renderer reads the record at the given index
and yields nothing when no record exists there; otherwise it renders the
serial number, name, email, and the city and company with the em-dash
placeholder for absent fields. -/
def UserRow (index : Nat) (users : List User) : Option RenderedRow :=
  match users[index]? with
  | none => none
  | some user =>
    some ⟨index + 1, index + 2, user.name, user.email,
      (cityOf user).getD "—", (companyOf user).getD "—"⟩

/-- getRowKey: the positional fallback key applies only when no record
exists at the index; a present record keys by its id, or by its email
when the id is absent. -/
def getRowKey (index : Nat) (users : List User) : JsPrim :=
  match users[index]? with
  | none => .str ("row-" ++ toString index)
  | some user =>
    match user.id with
    | some v => v
    | none => .str user.email

/-! ## Sample records used by witnesses -/

/-- Sample record with id, city and company. -/
def wAnn : User := ⟨0, some (.num 1), "Ann", "a@x.com", some ⟨some "NY"⟩, some ⟨some "Acme"⟩⟩

/-- Sample record without id. -/
def wBob : User := ⟨1, none, "Bob", "b@x.com", some ⟨some "NY"⟩, some ⟨some "Zeta"⟩⟩

/-- Sample record with absent city and company. -/
def wCal : User := ⟨2, none, "Cal", "c@x.com", none, none⟩

/-! ## Filter pipeline lemmas -/

theorem searchIndex_filter_project (users : List User) (f : String → Bool) :
    ((searchIndex users).filter (fun e => f e.2)).map (fun e => e.1)
      = users.filter (fun u => f (lowerStr u.name)) := by
  induction users with
  | nil => rfl
  | cons u us ih =>
    simp only [searchIndex, List.map_cons, List.filter_cons] at *
    cases h : f (lowerStr u.name) <;> simp [h, ih]

theorem filter_comp (p q : User → Bool) (l : List User) :
    (l.filter p).filter q = l.filter (fun a => p a && q a) := by
  induction l with
  | nil => rfl
  | cons a l ih =>
    simp only [List.filter_cons]
    cases hp : p a <;> cases hq : q a <;> simp [hp, hq, ih, List.filter_cons]

/-- C1: the filter pipeline output is exactly the roster filtered by the
conjunction of the query, city and company predicates (each vacuously
true while inactive), hence an ordered subsequence of the roster in the
original relative order, never re-sorted. -/
theorem filteredUsers_eq_filter_and_sublist (users : List User)
    (q city company : String) :
    filteredUsers users q city company
        = users.filter (fun u => queryPred q u && cityPass city u && companyPass company u) ∧
    List.Sublist (filteredUsers users q city company) users := by
  have main : filteredUsers users q city company
      = users.filter (fun u => queryPred q u && cityPass city u && companyPass company u) := by
    unfold filteredUsers
    by_cases h : normalizeSel q = ""
    · rw [if_neg (by simp [h])]
      exact List.filter_congr fun u _ => by simp [queryPred, h]
    · rw [if_pos h,
        searchIndex_filter_project users (fun s => strIncludes s (normalizeSel q)),
        filter_comp]
      exact List.filter_congr fun u _ => by simp [queryPred, h, Bool.and_assoc]
  refine ⟨main, ?_⟩
  rw [main]
  exact List.filter_sublist users

/-- C9: with every predicate inactive (query blank after trimming, city
and company at the no-filter sentinel, the empty selection) the filter
pipeline is the identity on the roster. -/
theorem filteredUsers_identity (users : List User) (q : String)
    (h : trimStr q = "") :
    filteredUsers users q "" "" = users := by
  have hq : normalizeSel q = "" := by rw [normalizeSel, h]; rfl
  unfold filteredUsers
  rw [if_neg (by simp [hq])]
  exact List.filter_eq_self.mpr fun a _ => rfl

/-- C9 witness: a whitespace-only query and empty selectors leave a
concrete roster unchanged. -/
theorem filteredUsers_identity_witness :
    trimStr "  " = "" ∧ filteredUsers [wAnn, wBob, wCal] "  " "" "" = [wAnn, wBob, wCal] :=
  ⟨by decide, filteredUsers_identity [wAnn, wBob, wCal] "  " (by decide)⟩

/-- C3: under an active city or company selector a record passes exactly
when the corresponding field is present and equal to the normalized
selected value case-insensitively; an active query matches
case-insensitively as a substring of the name. -/
theorem selector_match (u : User) (sel q : String)
    (hsel : normalizeSel sel ≠ "") (hq : normalizeSel q ≠ "") :
    (cityPass sel u = true ↔ ∃ c, cityOf u = some c ∧ lowerStr c = normalizeSel sel) ∧
    (companyPass sel u = true ↔ ∃ c, companyOf u = some c ∧ lowerStr c = normalizeSel sel) ∧
    (queryPred q u = true ↔ strIncludes (lowerStr u.name) (normalizeSel q) = true) := by
  refine ⟨?_, ?_, ?_⟩
  · simp [cityPass, hsel, Option.map_eq_some']
  · simp [companyPass, hsel, Option.map_eq_some']
  · simp [queryPred, hq]

/-- C3 witness: an active padded mixed-case city selector accepts a
concrete record whose city differs only in case, and the active query
matches inside the name. -/
theorem selector_match_witness :
    normalizeSel " nY " ≠ "" ∧
    (∃ c, cityOf wAnn = some c ∧ lowerStr c = normalizeSel " nY ") ∧
    strIncludes (lowerStr wAnn.name) (normalizeSel "AN") = true :=
  ⟨by decide,
    (selector_match wAnn " nY " "AN" (by decide) (by decide)).1.mp (by decide),
    (selector_match wAnn " nY " "AN" (by decide) (by decide)).2.2.mp (by decide)⟩

/-! ## Aggregation lemmas -/

theorem insertByCount_cons_le {x z : String × Nat} {zs : List (String × Nat)}
    (h : x.2 ≤ z.2) : insertByCount x (z :: zs) = z :: insertByCount x zs := by
  simp [insertByCount, h]

theorem insertByCount_cons_gt {x z : String × Nat} {zs : List (String × Nat)}
    (h : ¬x.2 ≤ z.2) : insertByCount x (z :: zs) = x :: z :: zs := by
  simp [insertByCount, h]

theorem mem_insertByCount {x y : String × Nat} {l : List (String × Nat)} :
    y ∈ insertByCount x l ↔ y = x ∨ y ∈ l := by
  induction l with
  | nil => simp [insertByCount]
  | cons z zs ih =>
    by_cases h : x.2 ≤ z.2
    · rw [insertByCount_cons_le h]
      simp only [List.mem_cons, ih]
      tauto
    · rw [insertByCount_cons_gt h]
      simp only [List.mem_cons]

theorem insertByCount_perm (x : String × Nat) (l : List (String × Nat)) :
    (insertByCount x l).Perm (x :: l) := by
  induction l with
  | nil => exact List.Perm.refl _
  | cons z zs ih =>
    by_cases h : x.2 ≤ z.2
    · rw [insertByCount_cons_le h]
      exact (ih.cons z).trans (List.Perm.swap x z zs)
    · rw [insertByCount_cons_gt h]

theorem insertByCount_sorted {x : String × Nat} {l : List (String × Nat)}
    (h : l.Pairwise (fun a b => b.2 ≤ a.2)) :
    (insertByCount x l).Pairwise (fun a b => b.2 ≤ a.2) := by
  induction l with
  | nil => simp [insertByCount]
  | cons z zs ih =>
    rw [List.pairwise_cons] at h
    obtain ⟨hz, hzs⟩ := h
    by_cases hle : x.2 ≤ z.2
    · rw [insertByCount_cons_le hle, List.pairwise_cons]
      refine ⟨?_, ih hzs⟩
      intro a ha
      rcases mem_insertByCount.mp ha with rfl | ha
      · exact hle
      · exact hz a ha
    · rw [insertByCount_cons_gt hle, List.pairwise_cons]
      refine ⟨?_, List.pairwise_cons.mpr ⟨hz, hzs⟩⟩
      intro a ha
      rcases List.mem_cons.mp ha with rfl | ha
      · exact Nat.le_of_lt (Nat.lt_of_not_le hle)
      · exact Nat.le_trans (hz a ha) (Nat.le_of_lt (Nat.lt_of_not_le hle))

theorem insertByCount_filter {x : String × Nat} {l : List (String × Nat)}
    (h : l.Pairwise (fun a b => b.2 ≤ a.2)) (c : Nat) :
    (insertByCount x l).filter (fun p => p.2 == c)
      = if x.2 = c then l.filter (fun p => p.2 == c) ++ [x]
        else l.filter (fun p => p.2 == c) := by
  induction l with
  | nil =>
    by_cases hc : x.2 = c <;> simp [insertByCount, List.filter_cons, hc]
  | cons z zs ih =>
    rw [List.pairwise_cons] at h
    obtain ⟨hz, hzs⟩ := h
    by_cases hle : x.2 ≤ z.2
    · rw [insertByCount_cons_le hle]
      simp only [List.filter_cons, ih hzs]
      by_cases hzc : z.2 = c <;> by_cases hc : x.2 = c <;> simp [hzc, hc]
    · have hlt : z.2 < x.2 := Nat.lt_of_not_le hle
      rw [insertByCount_cons_gt hle]
      by_cases hc : x.2 = c
      · have hznil : (z :: zs).filter (fun p => p.2 == c) = [] := by
          refine List.filter_eq_nil_iff.mpr ?_
          intro a ha
          rcases List.mem_cons.mp ha with rfl | ha
          · simp only [beq_iff_eq]
            omega
          · have := hz a ha
            simp only [beq_iff_eq]
            omega
        rw [List.filter_cons, hznil]
        simp [hc]
      · rw [List.filter_cons]
        simp [hc]

theorem sortFold_spec (l : List (String × Nat)) :
    ∀ acc : List (String × Nat), acc.Pairwise (fun a b => b.2 ≤ a.2) →
    (l.foldl (fun a x => insertByCount x a) acc).Pairwise (fun a b => b.2 ≤ a.2) ∧
    (l.foldl (fun a x => insertByCount x a) acc).Perm (acc ++ l) ∧
    ∀ c, (l.foldl (fun a x => insertByCount x a) acc).filter (fun p => p.2 == c)
        = acc.filter (fun p => p.2 == c) ++ l.filter (fun p => p.2 == c) := by
  induction l with
  | nil => intro acc h; exact ⟨h, by simp, by simp⟩
  | cons x xs ih =>
    intro acc h
    obtain ⟨hs, hp, hf⟩ := ih (insertByCount x acc) (insertByCount_sorted h)
    refine ⟨hs, ?_, ?_⟩
    · refine hp.trans ?_
      refine (((insertByCount_perm x acc).append_right xs).trans ?_)
      exact List.Perm.symm List.perm_middle
    · intro c
      rw [List.foldl_cons, hf c, insertByCount_filter h c, List.filter_cons]
      by_cases hc : x.2 = c
      · simp [hc]
      · simp [hc]

theorem sortByCountDesc_sorted (l : List (String × Nat)) :
    (sortByCountDesc l).Pairwise (fun a b => b.2 ≤ a.2) :=
  (sortFold_spec l [] (List.Pairwise.nil)).1

theorem sortByCountDesc_perm (l : List (String × Nat)) :
    (sortByCountDesc l).Perm l := by
  have := (sortFold_spec l [] (List.Pairwise.nil)).2.1
  simpa [sortByCountDesc] using this

theorem sortByCountDesc_filter (l : List (String × Nat)) (c : Nat) :
    (sortByCountDesc l).filter (fun p => p.2 == c) = l.filter (fun p => p.2 == c) := by
  have := (sortFold_spec l [] (List.Pairwise.nil)).2.2 c
  simpa [sortByCountDesc] using this

theorem bump_sum (k : String) (acc : List (String × Nat)) :
    sumCounts (bump k acc) = sumCounts acc + 1 := by
  induction acc with
  | nil => rfl
  | cons z zs ih =>
    obtain ⟨k₁, c⟩ := z
    by_cases h : k₁ = k
    · simp only [bump, if_pos h, sumCounts, List.map_cons, List.sum_cons]
      omega
    · simp only [bump, if_neg h, sumCounts, List.map_cons, List.sum_cons] at *
      omega

theorem bump_keys (k : String) (acc : List (String × Nat)) :
    (bump k acc).map Prod.fst
      = if k ∈ acc.map Prod.fst then acc.map Prod.fst else acc.map Prod.fst ++ [k] := by
  induction acc with
  | nil => simp [bump]
  | cons z zs ih =>
    obtain ⟨k₁, c⟩ := z
    by_cases h : k₁ = k
    · simp [bump, h]
    · have h' : ¬k = k₁ := fun e => h e.symm
      simp only [bump, if_neg h, List.map_cons, ih, List.mem_cons]
      by_cases hmem : k ∈ zs.map Prod.fst
      · simp [hmem, h']
      · simp [hmem, h']

theorem gatherFold_sum (getKey : User → Option String) (l : List User) :
    ∀ acc : List (String × Nat),
    sumCounts (l.foldl
        (fun acc u =>
          match getKey u with
          | none => acc
          | some k => if k = "" then acc else bump k acc)
        acc)
      ≤ sumCounts acc + l.length := by
  induction l with
  | nil => intro acc; simp
  | cons u us ih =>
    intro acc
    simp only [List.foldl_cons, List.length_cons]
    rcases hk : getKey u with _ | k
    · simp only [hk]
      have := ih acc
      omega
    · by_cases hke : k = ""
      · simp only [hk, if_pos hke]
        have := ih acc
        omega
      · simp only [hk, if_neg hke]
        have := ih (bump k acc)
        rw [bump_sum] at this
        omega

theorem gatherFold_srcKeys (getKey : User → Option String) (l : List User) :
    ∀ acc : List (String × Nat), ∀ x ∈ (l.foldl
        (fun acc u =>
          match getKey u with
          | none => acc
          | some k => if k = "" then acc else bump k acc)
        acc).map Prod.fst,
      x ∈ acc.map Prod.fst ∨ ∃ u ∈ l, getKey u = some x := by
  induction l with
  | nil => intro acc x hx; exact Or.inl hx
  | cons u us ih =>
    intro acc x hx
    simp only [List.foldl_cons] at hx
    rcases hk : getKey u with _ | k
    · simp only [hk] at hx
      rcases ih acc x hx with h | ⟨v, hv, hgv⟩
      · exact Or.inl h
      · exact Or.inr ⟨v, List.mem_cons_of_mem u hv, hgv⟩
    · by_cases hke : k = ""
      · simp only [hk, if_pos hke] at hx
        rcases ih acc x hx with h | ⟨v, hv, hgv⟩
        · exact Or.inl h
        · exact Or.inr ⟨v, List.mem_cons_of_mem u hv, hgv⟩
      · simp only [hk, if_neg hke] at hx
        rcases ih (bump k acc) x hx with h | ⟨v, hv, hgv⟩
        · rw [bump_keys] at h
          by_cases hmem : k ∈ acc.map Prod.fst
          · rw [if_pos hmem] at h
            exact Or.inl h
          · rw [if_neg hmem] at h
            rcases List.mem_append.mp h with h | h
            · exact Or.inl h
            · have : x = k := by simpa using h
              exact Or.inr ⟨u, List.mem_cons_self u us, this ▸ hk⟩
        · exact Or.inr ⟨v, List.mem_cons_of_mem u hv, hgv⟩

theorem gatherFold_keys (getKey : User → Option String) (l : List User) :
    ∀ acc : List (String × Nat),
    (l.foldl
        (fun acc u =>
          match getKey u with
          | none => acc
          | some k => if k = "" then acc else bump k acc)
        acc).map Prod.fst
      = l.foldl
          (fun acc u =>
            match getKey u with
            | none => acc
            | some k => if k = "" then acc else if k ∈ acc then acc else acc ++ [k])
          (acc.map Prod.fst) := by
  induction l with
  | nil => intro acc; rfl
  | cons u us ih =>
    intro acc
    simp only [List.foldl_cons]
    rcases hk : getKey u with _ | k
    · simp only [hk]
      exact ih acc
    · by_cases hke : k = ""
      · simp only [hk, if_pos hke]
        exact ih acc
      · simp only [hk, if_neg hke]
        rw [ih (bump k acc), bump_keys]

/-- C2: every key of the buildCounts output is the key of some input
record (no absent keys), its counts sum to at most the input length, the
output is sorted by count descending, the entries of every fixed count
keep the order of the insertion-ordered map (stable ties, not re-sorted
by key name), and that map lists keys in first-seen order. -/
theorem buildCounts_spec (entries : List User) (getKey : User → Option String) :
    (∀ p ∈ buildCounts entries getKey, ∃ u ∈ entries, getKey u = some p.1) ∧
    sumCounts (buildCounts entries getKey) ≤ entries.length ∧
    (buildCounts entries getKey).Pairwise (fun a b => b.2 ≤ a.2) ∧
    (∀ c, (buildCounts entries getKey).filter (fun p => p.2 == c)
        = (gatherCounts entries getKey).filter (fun p => p.2 == c)) ∧
    (gatherCounts entries getKey).map Prod.fst = firstSeenKeys entries getKey := by
  have hperm : (buildCounts entries getKey).Perm (gatherCounts entries getKey) :=
    sortByCountDesc_perm (gatherCounts entries getKey)
  refine ⟨?_, ?_, sortByCountDesc_sorted _, sortByCountDesc_filter _, ?_⟩
  · intro p hp
    have hpg : p ∈ gatherCounts entries getKey := hperm.mem_iff.mp hp
    have hkey : p.1 ∈ (gatherCounts entries getKey).map Prod.fst :=
      List.mem_map_of_mem Prod.fst hpg
    rcases gatherFold_srcKeys getKey entries [] p.1 hkey with h | h
    · simp at h
    · exact h
  · have hsum : sumCounts (buildCounts entries getKey)
        = sumCounts (gatherCounts entries getKey) := by
      unfold sumCounts
      exact (hperm.map (fun p => p.2)).sum_eq
    rw [hsum]
    have := gatherFold_sum getKey entries []
    simpa [sumCounts, gatherCounts] using this
  · exact gatherFold_keys getKey entries []

/-- C2 witness: the buildCounts guarantees instantiated on a concrete
roster grouped by city. -/
theorem buildCounts_spec_witness :
    sumCounts (buildCounts [wAnn, wBob, wCal] cityOf) ≤ 3 ∧
    (buildCounts [wAnn, wBob, wCal] cityOf).Pairwise (fun a b => b.2 ≤ a.2) :=
  ⟨(buildCounts_spec [wAnn, wBob, wCal] cityOf).2.1,
    (buildCounts_spec [wAnn, wBob, wCal] cityOf).2.2.1⟩

/-! ## Delete handler -/

theorem handleDelete_eq_erase (x : User) :
    ∀ prev : List User, (prev.map User.ref).Nodup → x ∈ prev →
      handleDelete x prev = prev.erase x := by
  intro prev
  induction prev with
  | nil => intro _ hx; cases hx
  | cons h t ih =>
    intro hnd hx
    rw [List.map_cons, List.nodup_cons] at hnd
    obtain ⟨hnotin, hnd'⟩ := hnd
    rcases List.mem_cons.mp hx with rfl | hxt
    · rw [List.erase_cons_head]
      unfold handleDelete
      rw [List.filter_cons]
      simp only [bne_self_eq_false, Bool.false_eq_true, if_false]
      refine List.filter_eq_self.mpr ?_
      intro a ha
      have hmem : a.ref ∈ t.map User.ref := List.mem_map_of_mem User.ref ha
      have hne : a.ref ≠ x.ref := fun e => hnotin (e ▸ hmem)
      simpa [bne_iff_ne] using hne
    · have hrefne : h.ref ≠ x.ref := fun e =>
        hnotin (e ▸ List.mem_map_of_mem User.ref hxt)
      have hne : h ≠ x := fun e => hrefne (congrArg User.ref e)
      unfold handleDelete
      rw [List.filter_cons]
      simp only [show (h.ref != x.ref) = true by simpa [bne_iff_ne] using hrefne, if_true]
      rw [List.erase_cons_tail (by simpa using hne)]
      have := ih hnd' hxt
      unfold handleDelete at this
      rw [this]

/-- C4: on a live roster (pairwise distinct object references) that
contains the record, the delete handler removes exactly the one
occurrence of that record by reference identity, keeping every record
with a different reference — even one with identical field values — in
place and in order. -/
theorem handleDelete_spec (prev : List User) (x : User)
    (hnd : (prev.map User.ref).Nodup) (hx : x ∈ prev) :
    handleDelete x prev = prev.erase x ∧
    (handleDelete x prev).length + 1 = prev.length ∧
    ∀ y ∈ prev, y.ref ≠ x.ref → y ∈ handleDelete x prev := by
  have main := handleDelete_eq_erase x prev hnd hx
  refine ⟨main, ?_, ?_⟩
  · rw [main]
    have h₁ := List.length_erase_of_mem hx
    have h₂ := List.length_pos_of_mem hx
    omega
  · intro y hy hne
    unfold handleDelete
    exact List.mem_filter.mpr ⟨hy, by simpa [bne_iff_ne] using hne⟩

/-- Sample record sharing every visible field with wSam2 but a distinct
reference. -/
def wSam1 : User := ⟨10, none, "Sam", "s@x.com", some ⟨some "NY"⟩, none⟩

/-- Sample record sharing every visible field with wSam1 but a distinct
reference. -/
def wSam2 : User := ⟨11, none, "Sam", "s@x.com", some ⟨some "NY"⟩, none⟩

/-- C4 witness: deleting a record keeps a value-identical twin with a
different reference. -/
theorem handleDelete_spec_witness :
    handleDelete wSam1 [wSam1, wSam2] = [wSam1, wSam2].erase wSam1 ∧
    wSam2 ∈ handleDelete wSam1 [wSam1, wSam2] :=
  ⟨(handleDelete_spec [wSam1, wSam2] wSam1 (by decide) (by decide)).1,
    (handleDelete_spec [wSam1, wSam2] wSam1 (by decide) (by decide)).2.2 wSam2
      (by decide) (by decide)⟩

/-! ## CSV exporter -/

/-- C5: exporting an empty sequence produces no file and the no-export
status; exporting a non-empty sequence of N records produces the CSV
text of a row list of length N + 1 whose head is the header row and
whose row i + 1 holds the fields of entry i with absent city and
company as the empty string, each cell double-quote enclosed with
internal quotes doubled and the rows newline-joined. -/
theorem handleExport_spec (entries : List User) (label : String) :
    (entries = [] →
      handleExport entries label = ⟨none, "No staff profiles are available to export."⟩) ∧
    (entries ≠ [] →
      (handleExport entries label).file = some (csvText (exportRows entries)) ∧
      (handleExport entries label).status
          = "Exported " ++ toString entries.length ++ " profiles from the " ++ label ++ "." ∧
      (exportRows entries).length = entries.length + 1 ∧
      (exportRows entries).head? = some ["Name", "Email", "City", "Company"] ∧
      ∀ i : Nat, ∀ u : User, entries[i]? = some u →
        (exportRows entries)[i + 1]?
          = some [u.name, u.email, (cityOf u).getD "", (companyOf u).getD ""]) := by
  constructor
  · rintro rfl
    rfl
  · intro hne
    have hlen : entries.length ≠ 0 := by simpa [List.length_eq_zero] using hne
    refine ⟨?_, ?_, ?_, ?_, ?_⟩
    · simp [handleExport, hlen]
    · simp [handleExport, hlen]
    · simp [exportRows]
    · simp [exportRows]
    · intro i u hu
      simp [exportRows, List.getElem?_cons_succ, List.getElem?_map, hu]

/-- C5 witness: the empty export yields no file with the no-export
status, and a two-record export yields three rows and the CSV text. -/
theorem handleExport_spec_witness :
    handleExport [] "full roster" = ⟨none, "No staff profiles are available to export."⟩ ∧
    (exportRows [wAnn, wCal]).length = 3 ∧
    (handleExport [wAnn, wCal] "filtered roster").file
      = some (csvText (exportRows [wAnn, wCal])) :=
  ⟨(handleExport_spec [] "full roster").1 rfl,
    ((handleExport_spec [wAnn, wCal] "filtered roster").2 (by simp)).2.2.1,
    ((handleExport_spec [wAnn, wCal] "filtered roster").2 (by simp)).1⟩

/-! ## Cache reader tolerance -/

/-- C6: every malformed stored cache value — absent key, unparseable
JSON, falsy or non-object parse result, non-array data member, or
non-numeric timestamp member — makes the cache read return absent, and
the roster published from the cache at mount is the same as with no
cache at all. -/
theorem readCachedUsers_malformed (stored : Option (Option Json))
    (h : malformedStored stored = true) :
    readCachedUsers stored = none ∧
    readCachedUsers stored = readCachedUsers none ∧
    initialRoster stored = initialRoster none := by
  have main : readCachedUsers stored = none := by
    rcases stored with _ | (_ | j)
    · rfl
    · rfl
    · simp only [readCachedUsers]
      by_cases htr : truthy j = false
      · rw [if_pos htr]
      · rw [if_neg htr]
        have htr' : truthy j = true := by
          revert htr
          cases truthy j <;> simp
        simp only [malformedStored, htr', Bool.not_true, Bool.false_or,
          Bool.or_eq_true, Bool.not_eq_true'] at h
        rcases hd : getMember j "data" with _ | d
        · simp [hd]
        · cases d with
          | arr elems =>
            rcases ht : getMember j "timestamp" with _ | t
            · simp [hd, ht]
            · cases t with
              | num n =>
                rw [hd, ht] at h
                simp [isArrayJson, isNumJson] at h
              | null => simp [hd, ht]
              | bool b => simp [hd, ht]
              | str s => simp [hd, ht]
              | arr es => simp [hd, ht]
              | obj fs => simp [hd, ht]
          | null => simp [hd]
          | bool b => simp [hd]
          | num n => simp [hd]
          | str s => simp [hd]
          | obj fs => simp [hd]
  exact ⟨main, by rw [main]; rfl, by simp [initialRoster, main]; rfl⟩

/-- Sample corrupt cache value: the data member is not an array. -/
def badCache : Option (Option Json) :=
  some (some (.obj [("data", .num 3), ("timestamp", .num 5)]))

/-- C6 witness: the concrete corrupt value is rejected and publishes
nothing. -/
theorem readCachedUsers_malformed_witness :
    malformedStored badCache = true ∧ readCachedUsers badCache = none ∧
    initialRoster badCache = initialRoster none :=
  ⟨rfl, (readCachedUsers_malformed badCache rfl).1,
    (readCachedUsers_malformed badCache rfl).2.2⟩

/-! ## Fetch abort behavior -/

/-- C7 (amended): the aborted resolution of the fetch is swallowed by
the early return of the catch branch — it is not classified as an
error, sets no error message, and leaves the roster, the filters, the
cache, the cached-data flag and the export status untouched — but the
finally branch still clears the loading flag whenever a loading
indicator was shown. -/
theorem fetchAborted_state (showLoading hasCachedData online : Bool) (now : Nat)
    (s : AppState) :
    (fetchUsersResolve showLoading hasCachedData online now .aborted s).error = s.error ∧
    (fetchUsersResolve showLoading hasCachedData online now .aborted s).users = s.users ∧
    (fetchUsersResolve showLoading hasCachedData online now .aborted s).query = s.query ∧
    (fetchUsersResolve showLoading hasCachedData online now .aborted s).selectedCity
      = s.selectedCity ∧
    (fetchUsersResolve showLoading hasCachedData online now .aborted s).selectedCompany
      = s.selectedCompany ∧
    (fetchUsersResolve showLoading hasCachedData online now .aborted s).exportStatus
      = s.exportStatus ∧
    (fetchUsersResolve showLoading hasCachedData online now .aborted s).isUsingCachedData
      = s.isUsingCachedData ∧
    (fetchUsersResolve showLoading hasCachedData online now .aborted s).cache = s.cache ∧
    (fetchUsersResolve showLoading hasCachedData online now .aborted s).loading
      = (if showLoading then false else s.loading) := by
  cases showLoading <;> simp [fetchUsersResolve]

/-- C7 counterexample: with a loading indicator shown, the aborted
resolution does mutate state — the finally branch resets the loading
flag, so the state after the aborted resolution differs from the state
at abort time. -/
theorem fetchAborted_counterexample :
    fetchUsersResolve true false true 0 .aborted
        ⟨[], "", "", "", true, none, none, false, none⟩
      ≠ ⟨[], "", "", "", true, none, none, false, none⟩ := by decide

/-! ## Row keys and windowed rendering -/

/-- C8 (amended): a present record keys by its own id; a present record
without an id falls back to the record email, not to the position; the
positional fallback key applies only when no record exists at the
index. -/
theorem getRowKey_cases (users : List User) (i : Nat) :
    (∀ u v, users[i]? = some u → u.id = some v → getRowKey i users = v) ∧
    (∀ u, users[i]? = some u → u.id = none → getRowKey i users = JsPrim.str u.email) ∧
    (users[i]? = none → getRowKey i users = JsPrim.str ("row-" ++ toString i)) := by
  refine ⟨?_, ?_, ?_⟩
  · intro u v hu hv
    simp [getRowKey, hu, hv]
  · intro u hu hv
    simp [getRowKey, hu, hv]
  · intro hu
    simp [getRowKey, hu]

/-- C8 counterexample: a record present at index 0 without an id gets
its email as key, not the positional fallback the claim prescribes. -/
theorem getRowKey_counterexample :
    getRowKey 0 [wBob] = JsPrim.str "b@x.com" ∧
    getRowKey 0 [wBob] ≠ JsPrim.str ("row-" ++ toString 0) := by decide

/-- C8 witness: the three key sources on a concrete roster. -/
theorem getRowKey_cases_witness :
    getRowKey 0 [wAnn, wBob] = JsPrim.num 1 ∧
    getRowKey 1 [wAnn, wBob] = JsPrim.str "b@x.com" ∧
    getRowKey 2 [wAnn, wBob] = JsPrim.str ("row-" ++ toString 2) :=
  ⟨(getRowKey_cases [wAnn, wBob] 0).1 wAnn (JsPrim.num 1) (by decide) rfl,
    (getRowKey_cases [wAnn, wBob] 1).2.1 wBob (by decide) rfl,
    (getRowKey_cases [wAnn, wBob] 2).2.2 (by decide)⟩

/-- C10: at any index past the end of the displayed sequence the row
renderer yields nothing and the key function returns the positional
fallback key, so the windowed-render boundary is total. -/
theorem rowRender_total_oob (users : List User) (i : Nat) (h : users.length ≤ i) :
    UserRow i users = none ∧ getRowKey i users = JsPrim.str ("row-" ++ toString i) := by
  have hnone : users[i]? = none := List.getElem?_eq_none h
  exact ⟨by simp [UserRow, hnone], by simp [getRowKey, hnone]⟩

/-- C10 witness: index five of a three-record sequence renders nothing
and keys positionally. -/
theorem rowRender_total_oob_witness :
    UserRow 5 [wAnn, wBob, wCal] = none ∧
    getRowKey 5 [wAnn, wBob, wCal] = JsPrim.str ("row-" ++ toString 5) :=
  rowRender_total_oob [wAnn, wBob, wCal] 5 (by decide)

end Dashboard
